import Mathlib

/-!
Shallow embedding of the k-means clustering implementation found in
UnsupervisedLearning/Clustering/algorithms/hard_assignment.py (class KMeans).

Modelling conventions:
* numpy float arithmetic is idealised by exact rational arithmetic (ℚ);
* a data matrix is a list of rows, each row a list of rationals;
* numpy randomness (np.random.randint, np.random.choice) is modelled by an
  explicit draw stream passed as a function argument; seeding with a fixed
  seed makes the stream a function of the seed alone, so the multi-run
  driver receives a family of streams indexed by the seed;
* np.mean over an empty selection yields NaN in numpy; here the empty mean
  is the 0/0 = 0 rational, a junk value that the spec itself flags as
  undefined behaviour of the source (zero-member clusters);
* np.argmin returns the index of the first minimum, which is the same index
  for the euclidean distances and for their squares (sqrt is strictly
  monotone), so distances are kept squared and rational throughout.
-/

namespace KMeans

/-- A feature vector: one row of the data matrix, rational entries standing
in for the floating point numbers of the source. -/
abbrev Vec := List ℚ

/-- Squared Euclidean distance between two rows, the square of the
pairwise_distances euclidean metric used everywhere in the source. -/
def sqDist (x y : Vec) : ℚ :=
  (List.zipWith (fun a b => (a - b) ^ 2) x y).sum

/-- Index of the first minimum of a list, the behaviour of np.argmin on a
1-D array (ties broken by the lowest index). -/
def argminIdx : List ℚ → ℕ
  | [] => 0
  | [_] => 0
  | x :: y :: t =>
    if x ≤ (y :: t).getD (argminIdx (y :: t)) 0 then 0 else argminIdx (y :: t) + 1

/-- KMeans.assign_clusters: each row is sent to the index of the nearest
centroid, np.argmin over the row of euclidean distances. -/
def assign_clusters (data : List Vec) (centroids : List Vec) : List ℕ :=
  data.map (fun x => argminIdx (centroids.map (fun c => sqDist x c)))

/-- Width of the data matrix (data.shape[1] in the source). -/
def dim (data : List Vec) : ℕ := (data.headD []).length

/-- Rows of data whose entry in the assignment equals i: the boolean mask
selection data[cluster_assignment == i] of the source. -/
def clusterMembers (data : List Vec) (a : List ℕ) (i : ℕ) : List Vec :=
  ((data.zip a).filter (fun q => q.2 == i)).map Prod.fst

/-- Column-wise mean of a list of rows (np.mean(member_data_points, axis=0)).
For an empty selection numpy yields NaN; here the 0/0 = 0 junk value. -/
def vmean (m : List Vec) (D : ℕ) : Vec :=
  (List.range D).map (fun j => (m.map (fun x => x.getD j 0)).sum / (m.length : ℚ))

/-- KMeans.revise_centroids: centroid i becomes the mean of the rows the
assignment places in cluster i. -/
def revise_centroids (data : List Vec) (k : ℕ) (a : List ℕ) : List Vec :=
  (List.range k).map (fun i => vmean (clusterMembers data a i) (dim data))

/-- KMeans.compute_heterogeneity: over each cluster index i < k, when the
cluster is non-empty, accumulate the squared euclidean distances from the
member rows to centroid i. -/
def compute_heterogeneity (data : List Vec) (k : ℕ) (centroids : List Vec)
    (a : List ℕ) : ℚ :=
  ∑ i in Finset.range k,
    (if 0 < (clusterMembers data a i).length then
      ((clusterMembers data a i).map (fun x => sqDist x (centroids.getD i []))).sum
    else 0)

/-- Observable state of KMeans.run_kmeans at loop exit: the centroids and
cluster_assignment variables, the record_heterogeneity list, plus two
instrumentation fields (number of executed loop iterations, and whether the
loop left through the convergence break). -/
structure LoopResult where
  centroids : List Vec
  assignment : Option (List ℕ)
  hist : List ℚ
  iters : ℕ
  converged : Bool
  deriving Repr, DecidableEq

/-- The for-loop of KMeans.run_kmeans, fuel = remaining range(maxiter)
iterations. Each iteration assigns clusters, revises centroids, breaks when
the assignment repeats the previous one, otherwise appends the current
heterogeneity to the record (when recording was requested) and continues. -/
def kmeansLoop (data : List Vec) (k : ℕ) (record : Bool) :
    ℕ → List Vec → Option (List ℕ) → List ℚ → ℕ → LoopResult
  | 0, c, prev, hist, used => ⟨c, prev, hist, used, false⟩
  | fuel + 1, c, prev, hist, used =>
    let a := assign_clusters data c
    let c2 := revise_centroids data k a
    if prev = some a then ⟨c2, some a, hist, used + 1, true⟩
    else
      kmeansLoop data k record fuel c2 (some a)
        (if record then hist ++ [compute_heterogeneity data k c2 a] else hist)
        (used + 1)

/-- KMeans.run_kmeans: starts the loop with the caller's initial centroids,
no previous assignment (prev_cluster_assignment = None) and an empty record;
returns the final centroids, the final cluster_assignment (None when the
loop body never ran) and the recorded heterogeneity list. -/
def run_kmeans (data : List Vec) (k : ℕ) (initial_centroids : List Vec)
    (maxiter : ℕ) (record : Bool) : List Vec × Option (List ℕ) × List ℚ :=
  let r := kmeansLoop data k record maxiter initial_centroids none [] 0
  (r.centroids, r.assignment, r.hist)

/-- KMeans.get_initial_centroids: np.random.randint(0, n, k) draws k indices
from [0, n) (the draw stream is the abstract PRNG after seeding) and the
corresponding rows become the centroids. No argument validation is
performed by the source. -/
def get_initial_centroids (data : List Vec) (k : ℕ) (draws : ℕ → ℕ) : List Vec :=
  (List.range k).map (fun j => data.getD (draws j) [])

/-- Minimum of a 1-D array, np.min (0 as junk value on the empty array). -/
def minD : List ℚ → ℚ
  | [] => 0
  | x :: t => t.foldl min x

/-- State of KMeans.smart_initialize after choosing centroid i: the chosen
centroids so far and the squared_distances vector (each row's squared
distance to its nearest chosen centroid). The index chosen at each step is
the abstract weighted draw draws i. -/
def smartAux (data : List Vec) (draws : ℕ → ℕ) : ℕ → List Vec × List ℚ
  | 0 =>
    ([data.getD (draws 0) []], data.map (fun x => sqDist x (data.getD (draws 0) [])))
  | i + 1 =>
    let p := smartAux data draws i
    let cs := p.1 ++ [data.getD (draws (i + 1)) []]
    (cs, data.map (fun x => minD (cs.map (fun c => sqDist x c))))

/-- KMeans.smart_initialize: the k-means++ centroid set determined by the
draw stream (first draw uniform, later draws weighted). -/
def smart_initialize_centroids (data : List Vec) (k : ℕ) (draws : ℕ → ℕ) : List Vec :=
  if k = 0 then [] else (smartAux data draws (k - 1)).1

/-- A draw stream is a possible outcome of smart_initialize's random calls:
every index is in range, and every weighted draw (np.random.choice with
p proportional to squared_distances) picks an index of positive weight. -/
def validSmartDraws (data : List Vec) (k : ℕ) (draws : ℕ → ℕ) : Prop :=
  draws 0 < data.length ∧
    ∀ j < k - 1, draws (j + 1) < data.length ∧
      0 < (smartAux data draws j).2.getD (draws (j + 1)) 0

/-- One trial of KMeans.kmeans_multiple_runs: initial centroids from
get_initial_centroids with the seed's draw stream, then run_kmeans with
record_heterogeneity=None. -/
def runOnce (data : List Vec) (k maxiter : ℕ) (draws : ℕ → ℕ) :
    List Vec × Option (List ℕ) :=
  let r := run_kmeans data k (get_initial_centroids data k draws) maxiter false
  (r.1, r.2.1)

/-- Final heterogeneity of a trial, compute_heterogeneity on the trial's
returned centroids and assignment. -/
def runHet (data : List Vec) (k : ℕ) (r : List Vec × Option (List ℕ)) : ℚ :=
  compute_heterogeneity data k r.1 (r.2.getD [])

/-- The for-loop of KMeans.kmeans_multiple_runs: fuel trials remain, i is
the trial counter, minH models min_heterogeneity_achieved (⊤ is the initial
float inf), best holds final_centroids and final_cluster_assignment. A
trial replaces the best record exactly when its heterogeneity is strictly
below the minimum achieved so far. -/
def driverLoop (data : List Vec) (k maxiter : ℕ) (rng : ℤ → ℕ → ℕ)
    (seedOf : ℕ → ℤ) :
    ℕ → ℕ → WithTop ℚ → Option (List Vec) × Option (List ℕ) →
      Option (List Vec) × Option (List ℕ)
  | 0, _, _, best => best
  | fuel + 1, i, minH, best =>
    let r := runOnce data k maxiter (rng (seedOf i))
    if (runHet data k r : WithTop ℚ) < minH then
      driverLoop data k maxiter rng seedOf fuel (i + 1)
        (runHet data k r : WithTop ℚ) (some r.1, r.2)
    else driverLoop data k maxiter rng seedOf fuel (i + 1) minH best

/-- KMeans.kmeans_multiple_runs: trial i uses seed_list[i] when a seed list
was supplied and a time-derived seed otherwise; rng maps each seed to the
PRNG draw stream obtained after np.random.seed(seed). -/
def kmeans_multiple_runs (data : List Vec) (k maxiter num_runs : ℕ)
    (seed_list : Option (List ℤ)) (rng : ℤ → ℕ → ℕ) (timeSeed : ℕ → ℤ) :
    Option (List Vec) × Option (List ℕ) :=
  driverLoop data k maxiter rng
    (fun i => match seed_list with | some l => l.getD i 0 | none => timeSeed i)
    num_runs 0 ⊤ (none, none)

/-! ### Index and argmin toolkit -/

lemma getD_map_of_lt {α β : Type} (l : List α) (f : α → β) (p : ℕ) (d : α) (d' : β)
    (hp : p < l.length) : (l.map f).getD p d' = f (l.getD p d) := by
  rw [List.getD_eq_getElem _ _ (by simpa using hp), List.getD_eq_getElem _ _ hp,
    List.getElem_map]

lemma getD_range_map {α : Type} (f : ℕ → α) (D j : ℕ) (d : α) (h : j < D) :
    ((List.range D).map f).getD j d = f j := by
  rw [getD_map_of_lt (List.range D) f j 0 d (by simpa using h),
    List.getD_eq_getElem _ _ (by simpa using h), List.getElem_range]

lemma argminIdx_lt_length : ∀ (l : List ℚ), l ≠ [] → argminIdx l < l.length
  | [], h => absurd rfl h
  | [_], _ => by simp [argminIdx]
  | x :: y :: t, _ => by
    have ih := argminIdx_lt_length (y :: t) (by simp)
    rw [argminIdx]
    split
    · simp
    · simpa using Nat.succ_lt_succ ih

lemma argminIdx_le : ∀ (l : List ℚ) (i : ℕ), i < l.length →
    l.getD (argminIdx l) 0 ≤ l.getD i 0
  | [], i, h => by simp at h
  | [x], i, h => by
    have hi : i = 0 := by
      simp at h
      omega
    subst hi
    simp [argminIdx]
  | x :: y :: t, i, h => by
    rw [argminIdx]
    split
    next hle =>
      match i with
      | 0 => simp
      | i + 1 =>
        have ih := argminIdx_le (y :: t) i (by simpa using h)
        simp only [List.getD_cons_succ, List.getD_cons_zero]
        exact le_trans hle ih
    next hle =>
      push_neg at hle
      match i with
      | 0 => simpa using hle.le
      | i + 1 =>
        have ih := argminIdx_le (y :: t) i (by simpa using h)
        simpa using ih

lemma argminIdx_first : ∀ (l : List ℚ) (i : ℕ), i < argminIdx l →
    l.getD (argminIdx l) 0 < l.getD i 0
  | [], i, h => by simp [argminIdx] at h
  | [x], i, h => by simp [argminIdx] at h
  | x :: y :: t, i, h => by
    rw [argminIdx] at h ⊢
    by_cases hle : x ≤ (y :: t).getD (argminIdx (y :: t)) 0
    · rw [if_pos hle] at h
      omega
    · rw [if_neg hle] at h ⊢
      push_neg at hle
      cases i with
      | zero => simpa using hle
      | succ i =>
        have ih := argminIdx_first (y :: t) i (by omega)
        simpa using ih

/-! ### Squared distance lemmas -/

lemma sqDist_cons (a b : ℚ) (t s : Vec) :
    sqDist (a :: t) (b :: s) = (a - b) ^ 2 + sqDist t s := by
  simp [sqDist]

lemma sqDist_nonneg : ∀ (x y : Vec), 0 ≤ sqDist x y
  | [], _ => by simp [sqDist]
  | _ :: _, [] => by simp [sqDist]
  | a :: t, b :: s => by
    have ih := sqDist_nonneg t s
    rw [sqDist_cons]
    positivity

lemma sqDist_eq_zero : ∀ (x y : Vec), x.length = y.length → sqDist x y = 0 → x = y
  | [], [], _, _ => rfl
  | [], _ :: _, h, _ => by simp at h
  | _ :: _, [], h, _ => by simp at h
  | a :: t, b :: s, h, h0 => by
    rw [sqDist_cons] at h0
    have h1 : 0 ≤ (a - b) ^ 2 := sq_nonneg _
    have h2 : 0 ≤ sqDist t s := sqDist_nonneg t s
    have ha : a = b := by
      have : (a - b) ^ 2 = 0 := by linarith
      have := (pow_eq_zero_iff two_ne_zero).mp this
      linarith
    have ht : t = s := sqDist_eq_zero t s (by simpa using h) (by linarith)
    rw [ha, ht]

/-! ### Mean minimisation (the update step never increases heterogeneity) -/

lemma sum_sq_sub_expand (l : List ℚ) (y : ℚ) :
    (l.map (fun x => (x - y) ^ 2)).sum
      = (l.map (fun x => x ^ 2)).sum - 2 * y * l.sum + (l.length : ℚ) * y ^ 2 := by
  induction l with
  | nil => simp
  | cons a t ih =>
    simp only [List.map_cons, List.sum_cons, List.length_cons, ih]
    push_cast
    ring

lemma mean_min_1d (l : List ℚ) (y : ℚ) :
    (l.map (fun x => (x - l.sum / (l.length : ℚ)) ^ 2)).sum
      ≤ (l.map (fun x => (x - y) ^ 2)).sum := by
  rcases eq_or_ne l [] with rfl | hl
  · simp
  · have hn : (0 : ℚ) < (l.length : ℚ) := by
      have : 0 < l.length := List.length_pos.mpr hl
      exact_mod_cast this
    have hmu : (l.length : ℚ) * (l.sum / (l.length : ℚ)) = l.sum := by
      field_simp
    rw [sum_sq_sub_expand, sum_sq_sub_expand]
    set μ := l.sum / (l.length : ℚ) with hμ
    have hS : l.sum = (l.length : ℚ) * μ := hmu.symm
    rw [hS]
    nlinarith [mul_nonneg hn.le (sq_nonneg (y - μ))]

lemma sqDist_coords : ∀ (x y : Vec), x.length = y.length →
    sqDist x y = ∑ j in Finset.range x.length, (x.getD j 0 - y.getD j 0) ^ 2
  | [], _, _ => by simp [sqDist]
  | _ :: _, [], h => by simp at h
  | a :: t, b :: s, h => by
    have ih := sqDist_coords t s (by simpa using h)
    rw [sqDist_cons, ih, List.length_cons, Finset.sum_range_succ']
    simp only [List.getD_cons_succ, List.getD_cons_zero]
    ring

lemma sqDist_coords_D (x y : Vec) (D : ℕ) (hx : x.length = D) (hy : y.length = D) :
    sqDist x y = ∑ j in Finset.range D, (x.getD j 0 - y.getD j 0) ^ 2 := by
  subst hx
  exact sqDist_coords x y (by omega)

lemma list_map_sum_comm {s : Finset ℕ} (m : List Vec) (g : Vec → ℕ → ℚ) :
    (m.map (fun x => ∑ j in s, g x j)).sum = ∑ j in s, (m.map (fun x => g x j)).sum := by
  induction m with
  | nil => simp
  | cons a t ih => simp [ih, Finset.sum_add_distrib]

lemma vmean_length (m : List Vec) (D : ℕ) : (vmean m D).length = D := by
  simp [vmean]

lemma vmean_getD (m : List Vec) (D j : ℕ) (h : j < D) :
    (vmean m D).getD j 0 = (m.map (fun x => x.getD j 0)).sum / (m.length : ℚ) := by
  unfold vmean
  exact getD_range_map _ D j 0 h

lemma mean_minimizes (m : List Vec) (D : ℕ) (hm : ∀ x ∈ m, x.length = D)
    (y : Vec) (hy : y.length = D) :
    (m.map (fun x => sqDist x (vmean m D))).sum ≤ (m.map (fun x => sqDist x y)).sum := by
  have hL : (m.map (fun x => sqDist x (vmean m D))).sum
      = ∑ j in Finset.range D,
          (m.map (fun x => (x.getD j 0 - (vmean m D).getD j 0) ^ 2)).sum := by
    rw [List.map_congr_left
      (fun x hx => sqDist_coords_D x (vmean m D) D (hm x hx) (vmean_length m D))]
    exact list_map_sum_comm m _
  have hR : (m.map (fun x => sqDist x y)).sum
      = ∑ j in Finset.range D, (m.map (fun x => (x.getD j 0 - y.getD j 0) ^ 2)).sum := by
    rw [List.map_congr_left (fun x hx => sqDist_coords_D x y D (hm x hx) hy)]
    exact list_map_sum_comm m _
  rw [hL, hR]
  apply Finset.sum_le_sum
  intro j hj
  rw [vmean_getD m D j (Finset.mem_range.mp hj)]
  have key := mean_min_1d (m.map (fun x => x.getD j 0)) (y.getD j 0)
  simpa [List.map_map, Function.comp] using key

/-! ### Heterogeneity: per-cluster form, per-point form, Lloyd inequalities -/

lemma clusterMembers_sub (data : List Vec) (a : List ℕ) (i : ℕ) :
    ∀ x ∈ clusterMembers data a i, x ∈ data := by
  intro x hx
  unfold clusterMembers at hx
  obtain ⟨⟨x', j⟩, hq, rfl⟩ := List.mem_map.mp hx
  exact (List.of_mem_zip (List.mem_of_mem_filter hq)).1

lemma compute_heterogeneity_eq (data : List Vec) (k : ℕ) (c : List Vec) (a : List ℕ) :
    compute_heterogeneity data k c a
      = ∑ i in Finset.range k,
          ((clusterMembers data a i).map (fun x => sqDist x (c.getD i []))).sum := by
  unfold compute_heterogeneity
  refine Finset.sum_congr rfl (fun i _ => ?_)
  split
  · rfl
  next h =>
    have hlen : (clusterMembers data a i).length = 0 := by omega
    rw [List.length_eq_zero.mp hlen]
    simp

lemma filter_sum_eq_pointSum (c : List Vec) (k : ℕ) :
    ∀ (l : List (Vec × ℕ)), (∀ q ∈ l, q.2 < k) →
      (∑ i in Finset.range k,
        (((l.filter (fun q => q.2 == i)).map Prod.fst).map
          (fun x => sqDist x (c.getD i []))).sum)
        = (l.map (fun q => sqDist q.1 (c.getD q.2 []))).sum
  | [], _ => by simp
  | q :: t, hl => by
    have ih := filter_sum_eq_pointSum c k t (fun r hr => hl r (List.mem_cons_of_mem q hr))
    have hq : q.2 < k := hl q (List.mem_cons_self q t)
    have hsplit : ∀ i : ℕ,
        ((((q :: t).filter (fun r => r.2 == i)).map Prod.fst).map
          (fun x => sqDist x (c.getD i []))).sum
          = (if q.2 = i then sqDist q.1 (c.getD i []) else 0)
            + (((t.filter (fun r => r.2 == i)).map Prod.fst).map
                (fun x => sqDist x (c.getD i []))).sum := by
      intro i
      by_cases hqi : q.2 = i
      · simp [List.filter_cons, hqi]
      · simp [List.filter_cons, hqi]
    rw [Finset.sum_congr rfl (fun i _ => hsplit i), Finset.sum_add_distrib,
      Finset.sum_ite_eq, if_pos (Finset.mem_range.mpr hq), ih]
    simp

lemma het_pointSum (data : List Vec) (k : ℕ) (c : List Vec) (a : List ℕ)
    (ha : ∀ j ∈ a, j < k) :
    compute_heterogeneity data k c a
      = ((data.zip a).map (fun q => sqDist q.1 (c.getD q.2 []))).sum := by
  rw [compute_heterogeneity_eq]
  have key := filter_sum_eq_pointSum c k (data.zip a)
    (fun q hq => ha q.2 (List.of_mem_zip (by simpa using hq)).2)
  simpa [clusterMembers] using key

lemma assign_clusters_length (data c : List Vec) :
    (assign_clusters data c).length = data.length := by
  simp [assign_clusters]

lemma assign_clusters_lt (data c : List Vec) (hc : c ≠ []) :
    ∀ j ∈ assign_clusters data c, j < c.length := by
  intro j hj
  unfold assign_clusters at hj
  obtain ⟨x, _, rfl⟩ := List.mem_map.mp hj
  have key := argminIdx_lt_length (c.map (fun cc => sqDist x cc)) (by simpa using hc)
  simpa using key

lemma assign_pointSum_le (c : List Vec) (hc : c ≠ []) :
    ∀ (data : List Vec) (a : List ℕ), a.length = data.length →
      (∀ j ∈ a, j < c.length) →
      ((data.zip (assign_clusters data c)).map
        (fun q => sqDist q.1 (c.getD q.2 []))).sum
        ≤ ((data.zip a).map (fun q => sqDist q.1 (c.getD q.2 []))).sum
  | [], a, _, _ => by simp
  | x :: t, [], hlen, _ => by simp at hlen
  | x :: t, j :: s, hlen, ha => by
    have ih := assign_pointSum_le c hc t s (by simpa using hlen)
      (fun r hr => ha r (List.mem_cons_of_mem j hr))
    have hj : j < c.length := ha j (List.mem_cons_self j s)
    have hcons : assign_clusters (x :: t) c
        = argminIdx (c.map (fun cc => sqDist x cc)) :: assign_clusters t c := rfl
    rw [hcons]
    simp only [List.zip_cons_cons, List.map_cons, List.sum_cons]
    have harg : argminIdx (c.map (fun cc => sqDist x cc)) < c.length := by
      have key := argminIdx_lt_length (c.map (fun cc => sqDist x cc)) (by simpa using hc)
      simpa using key
    have hmin := argminIdx_le (c.map (fun cc => sqDist x cc)) j (by simpa using hj)
    rw [getD_map_of_lt c _ _ [] 0 harg, getD_map_of_lt c _ _ [] 0 hj] at hmin
    exact add_le_add hmin ih

lemma assign_het_le (data : List Vec) (k : ℕ) (c : List Vec) (a : List ℕ)
    (hck : c.length = k) (hk : 0 < k) (hlen : a.length = data.length)
    (ha : ∀ j ∈ a, j < k) :
    compute_heterogeneity data k c (assign_clusters data c)
      ≤ compute_heterogeneity data k c a := by
  have hc : c ≠ [] := by
    intro h
    rw [h] at hck
    simp at hck
    omega
  rw [het_pointSum data k c (assign_clusters data c)
      (fun j hj => by have := assign_clusters_lt data c hc j hj; omega),
    het_pointSum data k c a ha]
  exact assign_pointSum_le c hc data a hlen (fun j hj => by have := ha j hj; omega)

lemma revise_length (data : List Vec) (k : ℕ) (a : List ℕ) :
    (revise_centroids data k a).length = k := by
  simp [revise_centroids]

lemma revise_getD (data : List Vec) (k : ℕ) (a : List ℕ) (i : ℕ) (hi : i < k) :
    (revise_centroids data k a).getD i [] = vmean (clusterMembers data a i) (dim data) := by
  unfold revise_centroids
  exact getD_range_map _ k i [] hi

lemma revise_getD_length (data : List Vec) (k : ℕ) (a : List ℕ) (i : ℕ) (hi : i < k) :
    ((revise_centroids data k a).getD i []).length = dim data := by
  rw [revise_getD data k a i hi]
  exact vmean_length _ _

lemma revise_het_le (data : List Vec) (k : ℕ) (a : List ℕ) (c : List Vec)
    (hD : ∀ v ∈ data, v.length = dim data)
    (hc : ∀ i, i < k → (c.getD i []).length = dim data) :
    compute_heterogeneity data k (revise_centroids data k a) a
      ≤ compute_heterogeneity data k c a := by
  rw [compute_heterogeneity_eq, compute_heterogeneity_eq]
  apply Finset.sum_le_sum
  intro i hi
  rw [revise_getD data k a i (Finset.mem_range.mp hi)]
  exact mean_minimizes (clusterMembers data a i) (dim data)
    (fun x hx => hD x (clusterMembers_sub data a i x hx)) (c.getD i [])
    (hc i (Finset.mem_range.mp hi))

lemma het_step_le (data : List Vec) (k : ℕ) (pa : List ℕ)
    (hk : 0 < k) (hD : ∀ v ∈ data, v.length = dim data)
    (hpa_len : pa.length = data.length) (hpa : ∀ j ∈ pa, j < k) :
    compute_heterogeneity data k
        (revise_centroids data k
          (assign_clusters data (revise_centroids data k pa)))
        (assign_clusters data (revise_centroids data k pa))
      ≤ compute_heterogeneity data k (revise_centroids data k pa) pa := by
  have h1 :
      compute_heterogeneity data k
          (revise_centroids data k
            (assign_clusters data (revise_centroids data k pa)))
          (assign_clusters data (revise_centroids data k pa))
        ≤ compute_heterogeneity data k (revise_centroids data k pa)
            (assign_clusters data (revise_centroids data k pa)) :=
    revise_het_le data k _ _ hD (fun i hi => revise_getD_length data k pa i hi)
  have h2 :
      compute_heterogeneity data k (revise_centroids data k pa)
          (assign_clusters data (revise_centroids data k pa))
        ≤ compute_heterogeneity data k (revise_centroids data k pa) pa :=
    assign_het_le data k (revise_centroids data k pa) pa (revise_length data k pa)
      hk hpa_len hpa
  exact le_trans h1 h2

/-! ### Convergence-loop invariants -/

lemma assign_revise_lt (data : List Vec) (k : ℕ) (hk : 0 < k) (pa : List ℕ) :
    ∀ j ∈ assign_clusters data (revise_centroids data k pa), j < k := by
  intro j hj
  have hcne : revise_centroids data k pa ≠ [] := by
    have hlen := revise_length data k pa
    intro hnil
    rw [hnil] at hlen
    simp at hlen
    omega
  have h1 := assign_clusters_lt data _ hcne j hj
  have h2 := revise_length data k pa
  omega

lemma kmeansLoop_chain (data : List Vec) (k : ℕ) (hk : 0 < k)
    (hD : ∀ v ∈ data, v.length = dim data) :
    ∀ (fuel : ℕ) (pa : List ℕ) (hist : List ℚ) (used : ℕ),
      pa.length = data.length → (∀ j ∈ pa, j < k) →
      List.Chain' (fun u v : ℚ => v ≤ u) hist →
      (∀ z ∈ hist.getLast?,
        compute_heterogeneity data k (revise_centroids data k pa) pa ≤ z) →
      List.Chain' (fun u v : ℚ => v ≤ u)
        (kmeansLoop data k true fuel (revise_centroids data k pa)
          (some pa) hist used).hist
  | 0, pa, hist, used, _, _, hchain, _ => by simpa [kmeansLoop] using hchain
  | fuel + 1, pa, hist, used, hlen, hpa, hchain, hlast => by
    simp only [kmeansLoop]
    split
    · simpa using hchain
    · have halen : (assign_clusters data (revise_centroids data k pa)).length
          = data.length := assign_clusters_length _ _
      have hak := assign_revise_lt data k hk pa
      have hstep := het_step_le data k pa hk hD hlen hpa
      simp only [if_pos rfl, reduceIte]
      apply kmeansLoop_chain data k hk hD fuel _ _ _ halen hak
      · rw [List.chain'_append]
        refine ⟨hchain, by simp, ?_⟩
        intro u hu v hv
        simp only [List.head?_cons, Option.mem_def, Option.some.injEq] at hv
        subst hv
        exact le_trans hstep (hlast u hu)
      · intro z hz
        rw [List.getLast?_concat] at hz
        simp only [Option.mem_def, Option.some.injEq] at hz
        subst hz
        exact le_refl _

lemma kmeansLoop_post (data : List Vec) (k : ℕ) (record : Bool) :
    ∀ (fuel : ℕ) (pa : List ℕ) (hist : List ℚ) (used : ℕ),
      pa.length = data.length →
      ∃ a : List ℕ,
        (kmeansLoop data k record fuel (revise_centroids data k pa)
          (some pa) hist used).assignment = some a ∧
        a.length = data.length ∧
        (kmeansLoop data k record fuel (revise_centroids data k pa)
          (some pa) hist used).centroids = revise_centroids data k a
  | 0, pa, _, _, hlen => ⟨pa, rfl, hlen, rfl⟩
  | fuel + 1, pa, hist, used, hlen => by
    simp only [kmeansLoop]
    split
    · exact ⟨assign_clusters data (revise_centroids data k pa), rfl,
        assign_clusters_length _ _, rfl⟩
    · exact kmeansLoop_post data k record fuel
        (assign_clusters data (revise_centroids data k pa)) _ _
        (assign_clusters_length _ _)

lemma kmeansLoop_iters (data : List Vec) (k : ℕ) (record : Bool) :
    ∀ (fuel : ℕ) (c : List Vec) (prev : Option (List ℕ)) (hist : List ℚ) (used : ℕ),
      (kmeansLoop data k record fuel c prev hist used).iters ≤ used + fuel
  | 0, _, _, _, used => by simp [kmeansLoop]
  | fuel + 1, c, prev, hist, used => by
    simp only [kmeansLoop]
    split
    · simp
    · have ih := kmeansLoop_iters data k record fuel
        (revise_centroids data k (assign_clusters data c))
        (some (assign_clusters data c))
        (if record then hist ++ [compute_heterogeneity data k
          (revise_centroids data k (assign_clusters data c))
          (assign_clusters data c)] else hist)
        (used + 1)
      calc (kmeansLoop data k record fuel _ _ _ (used + 1)).iters
          ≤ used + 1 + fuel := ih
        _ = used + (fuel + 1) := by omega

lemma kmeansLoop_hist_extend (data : List Vec) (k : ℕ) (record : Bool) :
    ∀ (fuel : ℕ) (c : List Vec) (prev : Option (List ℕ)) (hist : List ℚ) (used : ℕ),
      ∃ t, (kmeansLoop data k record fuel c prev hist used).hist = hist ++ t
  | 0, _, _, hist, _ => ⟨[], by simp [kmeansLoop]⟩
  | fuel + 1, c, prev, hist, used => by
    simp only [kmeansLoop]
    split
    · exact ⟨[], by simp⟩
    · rcases record
      case false =>
        simpa using kmeansLoop_hist_extend data k false fuel
          (revise_centroids data k (assign_clusters data c))
          (some (assign_clusters data c)) hist (used + 1)
      case true =>
        obtain ⟨t, ht⟩ := kmeansLoop_hist_extend data k true fuel
          (revise_centroids data k (assign_clusters data c))
          (some (assign_clusters data c))
          (hist ++ [compute_heterogeneity data k
            (revise_centroids data k (assign_clusters data c))
            (assign_clusters data c)]) (used + 1)
        refine ⟨compute_heterogeneity data k
          (revise_centroids data k (assign_clusters data c))
          (assign_clusters data c) :: t, ?_⟩
        simpa using ht

lemma kmeansLoop_count (data : List Vec) (k : ℕ) :
    ∀ (fuel : ℕ) (c : List Vec) (prev : Option (List ℕ)) (hist : List ℚ) (used : ℕ),
      (kmeansLoop data k true fuel c prev hist used).hist.length
        + (if (kmeansLoop data k true fuel c prev hist used).converged then 1 else 0)
        + used
      = (kmeansLoop data k true fuel c prev hist used).iters + hist.length
  | 0, _, _, hist, used => by
    simp [kmeansLoop]
    omega
  | fuel + 1, c, prev, hist, used => by
    simp only [kmeansLoop]
    split
    · simp
      omega
    · have ih := kmeansLoop_count data k fuel
        (revise_centroids data k (assign_clusters data c))
        (some (assign_clusters data c))
        (hist ++ [compute_heterogeneity data k
          (revise_centroids data k (assign_clusters data c))
          (assign_clusters data c)]) (used + 1)
      simp only [if_pos rfl, reduceIte] at ih ⊢
      rw [List.length_append] at ih
      simp only [List.length_cons, List.length_nil] at ih
      omega

lemma kmeansLoop_unfold_once (data : List Vec) (k : ℕ) (record : Bool)
    (initial : List Vec) (m : ℕ) :
    kmeansLoop data k record (m + 1) initial none [] 0
      = kmeansLoop data k record m
          (revise_centroids data k (assign_clusters data initial))
          (some (assign_clusters data initial))
          (if record then
            [compute_heterogeneity data k
              (revise_centroids data k (assign_clusters data initial))
              (assign_clusters data initial)]
          else []) 1 := by
  simp only [kmeansLoop]
  split
  next h => exact absurd h (by simp)
  next h => simp

lemma zip_getD_mem (data : List Vec) (a : List ℕ) (p : ℕ) (hp : p < data.length)
    (hlen : a.length = data.length) :
    (data.getD p [], a.getD p 0) ∈ data.zip a := by
  have hzlen : (data.zip a).length = data.length := by
    rw [List.length_zip, hlen]
    omega
  have hp' : p < (data.zip a).length := by omega
  have hpair : (data.zip a)[p] = (data.getD p [], a.getD p 0) := by
    rw [List.getElem_zip, List.getD_eq_getElem data [] hp,
      List.getD_eq_getElem a 0 (by omega)]
  rw [← hpair]
  exact List.getElem_mem hp'

lemma list_sum_zero_of_nonneg (l : List ℚ) (h : ∀ x ∈ l, 0 ≤ x) (h0 : l.sum = 0) :
    ∀ x ∈ l, x = 0 := by
  induction l with
  | nil => simp
  | cons a t ih =>
    simp only [List.sum_cons] at h0
    have ha : 0 ≤ a := h a (by simp)
    have ht : 0 ≤ t.sum :=
      List.sum_nonneg (fun x hx => h x (List.mem_cons_of_mem a hx))
    intro x hx
    rcases List.mem_cons.mp hx with rfl | hx'
    · linarith
    · exact ih (fun y hy => h y (List.mem_cons_of_mem a hy)) (by linarith) x hx'

/-! ### Concrete evaluations used by counterexamples and witnesses -/

lemma eval_assign_one_centroid :
    assign_clusters [[(0 : ℚ)], [1]] [[0]] = [0, 0] := by
  simp [assign_clusters, argminIdx]

lemma eval_assign_dup :
    assign_clusters [[(0 : ℚ)], [1]] [[0], [0]] = [0, 0] := by
  norm_num [assign_clusters, argminIdx, sqDist]

lemma eval_revise_k1 :
    revise_centroids [[(0 : ℚ)], [1]] 1 [0, 0] = [[1/2]] := by
  norm_num [revise_centroids, clusterMembers, vmean, dim, List.range_succ, sqDist]

lemma eval_revise_k2 :
    revise_centroids [[(0 : ℚ)], [1]] 2 [0, 0] = [[1/2], [0]] := by
  norm_num [revise_centroids, clusterMembers, vmean, dim, List.range_succ, sqDist]

lemma eval_het_k1 :
    compute_heterogeneity [[(0 : ℚ)], [1]] 1 [[1/2]] [0, 0] = 1/2 := by
  norm_num [compute_heterogeneity, clusterMembers, sqDist, Finset.sum_range_one]

lemma eval_het_k2 :
    compute_heterogeneity [[(0 : ℚ)], [1]] 2 [[1/2], [0]] [0, 0] = 1/2 := by
  norm_num [compute_heterogeneity, clusterMembers, sqDist, Finset.sum_range_succ]

lemma eval_init_dup :
    get_initial_centroids [[(0 : ℚ)], [1]] 2 (fun _ => 0) = [[0], [0]] := by
  simp [get_initial_centroids, List.range_succ]

/-! ## Claims -/

/-- C3, counterexample: with maxIter = 0 (a caller-supplied cap) on a one-point
dataset, run_kmeans returns cluster_assignment = None rather than a Cluster
Assignment in which the point index 0 appears: the claim fails for
maxIter = 0. -/
theorem run_kmeans_maxiter_zero_no_assignment :
    (run_kmeans [[(0 : ℚ)]] 1 [[0]] 0 false).2.1 = none := rfl

/-- C3 (amended with maxIter ≥ 1, forced by the counterexample): the
Convergence Loop executes at most maxIter iterations, and returns a Cluster
Assignment list of length N, giving every one of the N point indices exactly
one centroid index. -/
theorem run_kmeans_terminates_and_covers (data : List Vec) (k : ℕ)
    (initial : List Vec) (maxiter : ℕ) (record : Bool) (hmax : 1 ≤ maxiter) :
    (kmeansLoop data k record maxiter initial none [] 0).iters ≤ maxiter ∧
      ∃ a : List ℕ, (run_kmeans data k initial maxiter record).2.1 = some a ∧
        a.length = data.length := by
  constructor
  · have h := kmeansLoop_iters data k record maxiter initial none [] 0
    simpa using h
  · obtain ⟨m, rfl⟩ : ∃ m, maxiter = m + 1 := ⟨maxiter - 1, by omega⟩
    simp only [run_kmeans]
    rw [kmeansLoop_unfold_once]
    obtain ⟨a, ha, halen, -⟩ := kmeansLoop_post data k record m
      (assign_clusters data initial) _ 1 (assign_clusters_length data initial)
    exact ⟨a, ha, halen⟩

/-- C3 witness at a concrete input. -/
theorem run_kmeans_terminates_and_covers_witness :
    (kmeansLoop [[(0 : ℚ)], [1]] 2 false 5 [[0], [1]] none [] 0).iters ≤ 5 ∧
      ∃ a : List ℕ, (run_kmeans [[(0 : ℚ)], [1]] 2 [[0], [1]] 5 false).2.1 = some a ∧
        a.length = 2 :=
  run_kmeans_terminates_and_covers [[0], [1]] 2 [[0], [1]] 5 false (by omega)

/-- C4, counterexample: with recording requested and maxIter = 1, the single
(first) iteration appends the heterogeneity value 1/2 to the record, so a
value IS recorded after the first iteration, contradicting the claim that no
value is recorded after the first iteration. -/
theorem run_kmeans_records_first_iteration :
    (run_kmeans [[(0 : ℚ)], [1]] 1 [[0]] 1 true).2.2 = [1/2] := by
  simp [run_kmeans, kmeansLoop, eval_assign_one_centroid, eval_revise_k1]
  norm_num [compute_heterogeneity, clusterMembers, sqDist, Finset.sum_range_one]

/-- C4 (amended): with recording requested, run_kmeans appends exactly one
heterogeneity value after every executed iteration except the one (if any) at
which the convergence break fires — the record length plus one for a
converged exit equals the number of executed iterations — and in particular,
whenever maxIter ≥ 1, a value is recorded after the first iteration, so the
record is non-empty. -/
theorem run_kmeans_recording_schedule (data : List Vec) (k : ℕ)
    (initial : List Vec) (maxiter : ℕ) :
    (kmeansLoop data k true maxiter initial none [] 0).hist.length
        + (if (kmeansLoop data k true maxiter initial none [] 0).converged
            then 1 else 0)
      = (kmeansLoop data k true maxiter initial none [] 0).iters ∧
      (1 ≤ maxiter → (run_kmeans data k initial maxiter true).2.2 ≠ []) := by
  constructor
  · have h := kmeansLoop_count data k maxiter initial none [] 0
    simpa using h
  · intro hmax
    obtain ⟨m, rfl⟩ : ∃ m, maxiter = m + 1 := ⟨maxiter - 1, by omega⟩
    simp only [run_kmeans]
    rw [kmeansLoop_unfold_once]
    obtain ⟨t, ht⟩ := kmeansLoop_hist_extend data k true m
      (revise_centroids data k (assign_clusters data initial))
      (some (assign_clusters data initial))
      (if true then
        [compute_heterogeneity data k
          (revise_centroids data k (assign_clusters data initial))
          (assign_clusters data initial)]
      else []) 1
    rw [ht]
    simp

/-- C4 witness at a concrete input. -/
theorem run_kmeans_recording_schedule_witness :
    (run_kmeans [[(0 : ℚ)], [1]] 1 [[0]] 2 true).2.2 ≠ [] :=
  (run_kmeans_recording_schedule [[0], [1]] 1 [[0]] 2).2 (by omega)

/-- C5, counterexample: with N = 1 and k = 2 (so k > N) and an in-range
draw stream, get_initial_centroids returns the 2-row Centroid Set
[[0], [0]] normally instead of failing with InvalidArgument: the source
performs no argument validation, and sampling with replacement happily
duplicates rows. -/
theorem get_initial_centroids_k_gt_n_returns :
    get_initial_centroids [[(0 : ℚ)]] 2 (fun _ => 0) = [[(0 : ℚ)], [0]] := by
  simp [get_initial_centroids, List.range_succ]

/-- C5 (amended): get_initial_centroids never fails: for every k (including
k > N and k = 0) and every in-range draw stream it returns a Centroid Set of
exactly k rows, each row a point of the dataset (duplicates permitted). -/
theorem get_initial_centroids_total (data : List Vec) (k : ℕ) (draws : ℕ → ℕ)
    (h : ∀ j, draws j < data.length) :
    (get_initial_centroids data k draws).length = k ∧
      ∀ row ∈ get_initial_centroids data k draws, row ∈ data := by
  constructor
  · simp [get_initial_centroids]
  · intro row hrow
    unfold get_initial_centroids at hrow
    obtain ⟨j, -, rfl⟩ := List.mem_map.mp hrow
    rw [List.getD_eq_getElem data [] (h j)]
    exact List.getElem_mem (h j)

/-- C5 witness at a concrete input with k greater than N. -/
theorem get_initial_centroids_total_witness :
    (get_initial_centroids [[(0 : ℚ)]] 2 (fun _ => 0)).length = 2 ∧
      ∀ row ∈ get_initial_centroids [[(0 : ℚ)]] 2 (fun _ => 0), row ∈ [[(0 : ℚ)]] :=
  get_initial_centroids_total [[0]] 2 (fun _ => 0) (fun _ => Nat.one_pos)

/-- C6, counterexample: called with num_runs = 0 (numRuns ≤ 0) the Multi-Run
Driver returns the pair (None, None) normally instead of failing with
InvalidArgument: the range(num_runs) loop body never executes and the
initial None values are returned. -/
theorem kmeans_multiple_runs_zero_runs_cx :
    kmeans_multiple_runs [[(0 : ℚ)]] 1 1 0 (some [1]) (fun _ _ => 0) (fun _ => 0)
      = (none, none) := rfl

/-- C6 (amended): for every dataset, k, maxIter, seed list and PRNG, the
Multi-Run Driver with numRuns = 0 (the only ℕ rendering of numRuns ≤ 0;
a negative Python int makes range empty just the same) returns (None, None)
without any error. -/
theorem kmeans_multiple_runs_zero_runs_returns_none (data : List Vec)
    (k maxiter : ℕ) (seed_list : Option (List ℤ)) (rng : ℤ → ℕ → ℕ)
    (timeSeed : ℕ → ℤ) :
    kmeans_multiple_runs data k maxiter 0 seed_list rng timeSeed = (none, none) :=
  rfl

/-- C7: heterogeneity is always nonnegative, and it is zero only if every
data point coincides with its assigned centroid. The hypotheses are the
spec's data-model typing: the Cluster Assignment maps each of the N point
indices to a centroid index below k, the Centroid Set has k rows, and all
points and centroids live in the same D-dimensional space. -/
theorem compute_heterogeneity_nonneg_zero (data : List Vec) (k : ℕ)
    (centroids : List Vec) (a : List ℕ) (D : ℕ)
    (hlen : a.length = data.length) (hak : ∀ j ∈ a, j < k)
    (hck : centroids.length = k)
    (hD : ∀ v ∈ data, v.length = D) (hcD : ∀ c ∈ centroids, c.length = D) :
    0 ≤ compute_heterogeneity data k centroids a ∧
      (compute_heterogeneity data k centroids a = 0 →
        ∀ p < data.length, data.getD p [] = centroids.getD (a.getD p 0) []) := by
  have hnn : 0 ≤ compute_heterogeneity data k centroids a := by
    rw [compute_heterogeneity_eq]
    refine Finset.sum_nonneg (fun i _ => ?_)
    refine List.sum_nonneg (fun x hx => ?_)
    obtain ⟨v, -, rfl⟩ := List.mem_map.mp hx
    exact sqDist_nonneg v _
  refine ⟨hnn, fun h0 p hp => ?_⟩
  rw [het_pointSum data k centroids a hak] at h0
  have hterm : sqDist (data.getD p []) (centroids.getD (a.getD p 0) []) = 0 := by
    have hmem : (data.getD p [], a.getD p 0) ∈ data.zip a :=
      zip_getD_mem data a p hp hlen
    have hin : sqDist (data.getD p []) (centroids.getD (a.getD p 0) [])
        ∈ (data.zip a).map (fun q => sqDist q.1 (centroids.getD q.2 [])) :=
      List.mem_map.mpr ⟨(data.getD p [], a.getD p 0), hmem, rfl⟩
    refine list_sum_zero_of_nonneg _ (fun x hx => ?_) h0 _ hin
    obtain ⟨q, -, rfl⟩ := List.mem_map.mp hx
    exact sqDist_nonneg _ _
  have hxlen : (data.getD p []).length = D := by
    rw [List.getD_eq_getElem data [] hp]
    exact hD _ (List.getElem_mem hp)
  have hclen : (centroids.getD (a.getD p 0) []).length = D := by
    have hjk : a.getD p 0 < k := by
      have hpa : p < a.length := by omega
      refine hak _ ?_
      rw [List.getD_eq_getElem a 0 hpa]
      exact List.getElem_mem hpa
    have hjc : a.getD p 0 < centroids.length := by omega
    rw [List.getD_eq_getElem centroids [] hjc]
    exact hcD _ (List.getElem_mem hjc)
  exact sqDist_eq_zero _ _ (by omega) hterm

/-- C7 witness at a concrete input. -/
theorem compute_heterogeneity_nonneg_zero_witness :
    0 ≤ compute_heterogeneity [[(0 : ℚ)], [1]] 2 [[0], [1]] [0, 1] ∧
      (compute_heterogeneity [[(0 : ℚ)], [1]] 2 [[0], [1]] [0, 1] = 0 →
        ∀ p < 2, ([[(0 : ℚ)], [1]].getD p [])
          = [[(0 : ℚ)], [1]].getD ([0, 1].getD p 0) []) :=
  compute_heterogeneity_nonneg_zero [[0], [1]] 2 [[0], [1]] [0, 1] 1
    (by decide) (by decide) (by decide) (by decide) (by decide)

/-- C8: assign_clusters sends every point to a centroid at minimal (squared,
equivalently plain, since sqrt is strictly monotone) Euclidean distance, and
among the minimisers it picks the lowest centroid index: every centroid with
a strictly smaller index is strictly farther. Holds for every dataset and
every non-empty Centroid Set. -/
theorem assign_clusters_first_minimum (data centroids : List Vec)
    (hc : centroids ≠ []) :
    (assign_clusters data centroids).length = data.length ∧
      ∀ p < data.length,
        (assign_clusters data centroids).getD p 0 < centroids.length ∧
        (∀ i < centroids.length,
          sqDist (data.getD p [])
              (centroids.getD ((assign_clusters data centroids).getD p 0) [])
            ≤ sqDist (data.getD p []) (centroids.getD i [])) ∧
        (∀ i < (assign_clusters data centroids).getD p 0,
          sqDist (data.getD p [])
              (centroids.getD ((assign_clusters data centroids).getD p 0) [])
            < sqDist (data.getD p []) (centroids.getD i [])) := by
  refine ⟨assign_clusters_length data centroids, fun p hp => ?_⟩
  have hval : (assign_clusters data centroids).getD p 0
      = argminIdx (centroids.map (fun cc => sqDist (data.getD p []) cc)) := by
    unfold assign_clusters
    exact getD_map_of_lt data _ p [] 0 hp
  have hmapne : centroids.map (fun cc => sqDist (data.getD p []) cc) ≠ [] := by
    simpa using hc
  have hargle : argminIdx (centroids.map (fun cc => sqDist (data.getD p []) cc))
      < centroids.length := by
    have h := argminIdx_lt_length _ hmapne
    simpa using h
  refine ⟨by rw [hval]; exact hargle, fun i hi => ?_, fun i hi => ?_⟩
  · have h := argminIdx_le (centroids.map (fun cc => sqDist (data.getD p []) cc)) i
      (by simpa using hi)
    rw [getD_map_of_lt centroids _ _ [] 0 hargle,
      getD_map_of_lt centroids _ _ [] 0 hi] at h
    rw [hval]
    exact h
  · rw [hval] at hi ⊢
    have h := argminIdx_first (centroids.map (fun cc => sqDist (data.getD p []) cc)) i hi
    have hilt : i < centroids.length := by omega
    rw [getD_map_of_lt centroids _ _ [] 0 hargle,
      getD_map_of_lt centroids _ _ [] 0 hilt] at h
    exact h

/-- C8 witness at a concrete input with a distance tie. -/
theorem assign_clusters_first_minimum_witness :
    (assign_clusters [[(0 : ℚ)], [3]] [[1], [2]]).length = 2 ∧
      ∀ p < 2,
        (assign_clusters [[(0 : ℚ)], [3]] [[1], [2]]).getD p 0 < 2 ∧
        (∀ i < 2,
          sqDist ([[(0 : ℚ)], [3]].getD p [])
              ([[(1 : ℚ)], [2]].getD
                ((assign_clusters [[(0 : ℚ)], [3]] [[1], [2]]).getD p 0) [])
            ≤ sqDist ([[(0 : ℚ)], [3]].getD p []) ([[(1 : ℚ)], [2]].getD i [])) ∧
        (∀ i < (assign_clusters [[(0 : ℚ)], [3]] [[1], [2]]).getD p 0,
          sqDist ([[(0 : ℚ)], [3]].getD p [])
              ([[(1 : ℚ)], [2]].getD
                ((assign_clusters [[(0 : ℚ)], [3]] [[1], [2]]).getD p 0) [])
            < sqDist ([[(0 : ℚ)], [3]].getD p []) ([[(1 : ℚ)], [2]].getD i [])) :=
  assign_clusters_first_minimum [[0], [3]] [[1], [2]] (by decide)

/-- C10: for maxIter ≥ 1, the Centroid Set returned by run_kmeans equals
revise_centroids(data, k, a) where a is the Cluster Assignment returned
alongside it: each returned centroid is the mean of its returned cluster. -/
theorem run_kmeans_centroids_eq_revise (data : List Vec) (k : ℕ)
    (initial : List Vec) (maxiter : ℕ) (record : Bool) (hmax : 1 ≤ maxiter) :
    ∃ a : List ℕ, (run_kmeans data k initial maxiter record).2.1 = some a ∧
      (run_kmeans data k initial maxiter record).1 = revise_centroids data k a := by
  obtain ⟨m, rfl⟩ : ∃ m, maxiter = m + 1 := ⟨maxiter - 1, by omega⟩
  simp only [run_kmeans]
  rw [kmeansLoop_unfold_once]
  obtain ⟨a, ha, -, hcent⟩ := kmeansLoop_post data k record m
    (assign_clusters data initial) _ 1 (assign_clusters_length data initial)
  exact ⟨a, ha, hcent⟩

/-- C10 witness at a concrete input. -/
theorem run_kmeans_centroids_eq_revise_witness :
    ∃ a : List ℕ, (run_kmeans [[(0 : ℚ)], [1]] 2 [[0], [1]] 4 false).2.1 = some a ∧
      (run_kmeans [[(0 : ℚ)], [1]] 2 [[0], [1]] 4 false).1
        = revise_centroids [[(0 : ℚ)], [1]] 2 a :=
  run_kmeans_centroids_eq_revise [[0], [1]] 2 [[0], [1]] 4 false (by omega)

/-- C2: when heterogeneity recording is requested, the sequence recorded by
the Convergence Loop across consecutive iterations is non-increasing (Lloyd
monotonicity). The hypotheses are the spec's data-model typing: k ≥ 1, the
initial Centroid Set has k rows, and all points live in the same
D-dimensional space. -/
theorem run_kmeans_recorded_heterogeneity_antitone (data : List Vec) (k : ℕ)
    (initial : List Vec) (maxiter : ℕ) (D : ℕ) (hk : 0 < k)
    (hinit : initial.length = k) (hD : ∀ v ∈ data, v.length = D) :
    List.Chain' (fun u v : ℚ => v ≤ u)
      (run_kmeans data k initial maxiter true).2.2 := by
  have hD' : ∀ v ∈ data, v.length = dim data := by
    intro v hv
    cases data with
    | nil => simp at hv
    | cons w t =>
      have hw : w.length = D := hD w (by simp)
      have hv' : v.length = D := hD v hv
      simp only [dim, List.headD_cons]
      omega
  cases maxiter with
  | zero => simp [run_kmeans, kmeansLoop]
  | succ m =>
    simp only [run_kmeans]
    rw [kmeansLoop_unfold_once]
    simp only [reduceIte]
    have ha0len : (assign_clusters data initial).length = data.length :=
      assign_clusters_length data initial
    have ha0k : ∀ j ∈ assign_clusters data initial, j < k := by
      intro j hj
      have hne : initial ≠ [] := by
        intro hnil
        rw [hnil] at hinit
        simp at hinit
        omega
      have h1 := assign_clusters_lt data initial hne j hj
      omega
    apply kmeansLoop_chain data k hk hD' m (assign_clusters data initial) _ 1
      ha0len ha0k
    · simp
    · intro z hz
      simp only [List.getLast?_singleton, Option.mem_def, Option.some.injEq] at hz
      rw [hz]

/-- C2 witness at a concrete input. -/
theorem run_kmeans_recorded_heterogeneity_antitone_witness :
    List.Chain' (fun u v : ℚ => v ≤ u)
      (run_kmeans [[(0 : ℚ)], [1]] 1 [[5]] 3 true).2.2 :=
  run_kmeans_recorded_heterogeneity_antitone [[0], [1]] 1 [[5]] 3 1
    (by omega) (by decide) (by decide)

/-- Unfolding the three trials of the Multi-Run Driver with strict-improvement
best tracking gives the first-seen run of globally minimal heterogeneity. -/
lemma driverLoop_best_of_three (data : List Vec) (k maxiter : ℕ)
    (rng : ℤ → ℕ → ℕ) (seedOf : ℕ → ℤ) :
    ∃ i, i < 3 ∧
      driverLoop data k maxiter rng seedOf 3 0 ⊤ (none, none)
          = (some (runOnce data k maxiter (rng (seedOf i))).1,
             (runOnce data k maxiter (rng (seedOf i))).2) ∧
      (∀ j, j < 3 → runHet data k (runOnce data k maxiter (rng (seedOf i)))
          ≤ runHet data k (runOnce data k maxiter (rng (seedOf j)))) ∧
      (∀ j, j < i → runHet data k (runOnce data k maxiter (rng (seedOf i)))
          < runHet data k (runOnce data k maxiter (rng (seedOf j)))) := by
  simp only [driverLoop]
  have hc0 : (runHet data k (runOnce data k maxiter (rng (seedOf 0))) : WithTop ℚ)
      < ⊤ := WithTop.coe_lt_top _
  rw [if_pos hc0]
  by_cases hc1 : runHet data k (runOnce data k maxiter (rng (seedOf 1)))
      < runHet data k (runOnce data k maxiter (rng (seedOf 0)))
  · rw [if_pos (WithTop.coe_lt_coe.mpr hc1)]
    by_cases hc2 : runHet data k (runOnce data k maxiter (rng (seedOf 2)))
        < runHet data k (runOnce data k maxiter (rng (seedOf 1)))
    · rw [if_pos (WithTop.coe_lt_coe.mpr hc2)]
      refine ⟨2, by omega, rfl, ?_, ?_⟩
      · intro j hj
        interval_cases j
        · linarith
        · linarith
        · exact le_refl _
      · intro j hj
        interval_cases j
        · linarith
        · linarith
    · rw [if_neg (fun hco => hc2 (WithTop.coe_lt_coe.mp hco))]
      have hle2 : runHet data k (runOnce data k maxiter (rng (seedOf 1)))
          ≤ runHet data k (runOnce data k maxiter (rng (seedOf 2))) :=
        not_lt.mp hc2
      refine ⟨1, by omega, rfl, ?_, ?_⟩
      · intro j hj
        interval_cases j
        · linarith
        · exact le_refl _
        · linarith
      · intro j hj
        interval_cases j
        linarith
  · rw [if_neg (fun hco => hc1 (WithTop.coe_lt_coe.mp hco))]
    have hle1 : runHet data k (runOnce data k maxiter (rng (seedOf 0)))
        ≤ runHet data k (runOnce data k maxiter (rng (seedOf 1))) :=
      not_lt.mp hc1
    by_cases hc2 : runHet data k (runOnce data k maxiter (rng (seedOf 2)))
        < runHet data k (runOnce data k maxiter (rng (seedOf 0)))
    · rw [if_pos (WithTop.coe_lt_coe.mpr hc2)]
      refine ⟨2, by omega, rfl, ?_, ?_⟩
      · intro j hj
        interval_cases j
        · linarith
        · linarith
        · exact le_refl _
      · intro j hj
        interval_cases j
        · linarith
        · linarith
    · rw [if_neg (fun hco => hc2 (WithTop.coe_lt_coe.mp hco))]
      have hle2 : runHet data k (runOnce data k maxiter (rng (seedOf 0)))
          ≤ runHet data k (runOnce data k maxiter (rng (seedOf 2))) :=
        not_lt.mp hc2
      refine ⟨0, by omega, rfl, ?_, ?_⟩
      · intro j hj
        interval_cases j
        · exact le_refl _
        · linarith
        · linarith
      · intro j hj
        omega

/-- C9: called with the caller-supplied seed list [1,2,3] and numRuns = 3, the
Multi-Run Driver's output does not depend on the time-derived seed source
(only the three listed seeds are evaluated), and it returns the Centroid Set
and Cluster Assignment of the trial, among exactly those three, whose final
heterogeneity is minimal, the first-seen trial winning ties (every
earlier-seeded trial has strictly larger heterogeneity). The maxIter ≥ 1
hypothesis keeps the final heterogeneity well defined (the spec's error model
already treats non-positive iteration counts as invalid). -/
theorem kmeans_multiple_runs_seeded_best_of_three (data : List Vec)
    (k maxiter : ℕ) (rng : ℤ → ℕ → ℕ) (timeSeed timeSeed' : ℕ → ℤ)
    (hmax : 1 ≤ maxiter) :
    kmeans_multiple_runs data k maxiter 3 (some [1, 2, 3]) rng timeSeed
        = kmeans_multiple_runs data k maxiter 3 (some [1, 2, 3]) rng timeSeed' ∧
      ∃ i, i < 3 ∧
        kmeans_multiple_runs data k maxiter 3 (some [1, 2, 3]) rng timeSeed
            = (some (runOnce data k maxiter
                (rng (([1, 2, 3] : List ℤ).getD i 0))).1,
               (runOnce data k maxiter (rng (([1, 2, 3] : List ℤ).getD i 0))).2) ∧
        (∀ j, j < 3 →
          runHet data k (runOnce data k maxiter (rng (([1, 2, 3] : List ℤ).getD i 0)))
            ≤ runHet data k
                (runOnce data k maxiter (rng (([1, 2, 3] : List ℤ).getD j 0)))) ∧
        (∀ j, j < i →
          runHet data k (runOnce data k maxiter (rng (([1, 2, 3] : List ℤ).getD i 0)))
            < runHet data k
                (runOnce data k maxiter (rng (([1, 2, 3] : List ℤ).getD j 0)))) := by
  have e0 : kmeans_multiple_runs data k maxiter 3 (some [1, 2, 3]) rng timeSeed
      = driverLoop data k maxiter rng (fun i => ([1, 2, 3] : List ℤ).getD i 0)
          3 0 ⊤ (none, none) := rfl
  have e1 : kmeans_multiple_runs data k maxiter 3 (some [1, 2, 3]) rng timeSeed'
      = driverLoop data k maxiter rng (fun i => ([1, 2, 3] : List ℤ).getD i 0)
          3 0 ⊤ (none, none) := rfl
  refine ⟨e0.trans e1.symm, ?_⟩
  obtain ⟨i, hi, heq, hmin, hstrict⟩ := driverLoop_best_of_three data k maxiter rng
    (fun i => ([1, 2, 3] : List ℤ).getD i 0)
  exact ⟨i, hi, e0.trans heq, hmin, hstrict⟩

/-- C9 witness at a concrete input. -/
theorem kmeans_multiple_runs_seeded_best_of_three_witness :
    kmeans_multiple_runs [[(0 : ℚ)], [1]] 1 1 3 (some [1, 2, 3])
        (fun _ _ => 0) (fun _ => 0)
        = kmeans_multiple_runs [[(0 : ℚ)], [1]] 1 1 3 (some [1, 2, 3])
            (fun _ _ => 0) (fun _ => 7) ∧
      ∃ i, i < 3 ∧
        kmeans_multiple_runs [[(0 : ℚ)], [1]] 1 1 3 (some [1, 2, 3])
            (fun _ _ => 0) (fun _ => 0)
            = (some (runOnce [[(0 : ℚ)], [1]] 1 1
                ((fun _ _ => 0) (([1, 2, 3] : List ℤ).getD i 0))).1,
               (runOnce [[(0 : ℚ)], [1]] 1 1
                ((fun _ _ => 0) (([1, 2, 3] : List ℤ).getD i 0))).2) ∧
        (∀ j, j < 3 →
          runHet [[(0 : ℚ)], [1]] 1 (runOnce [[(0 : ℚ)], [1]] 1 1
              ((fun _ _ => 0) (([1, 2, 3] : List ℤ).getD i 0)))
            ≤ runHet [[(0 : ℚ)], [1]] 1 (runOnce [[(0 : ℚ)], [1]] 1 1
                ((fun _ _ => 0) (([1, 2, 3] : List ℤ).getD j 0)))) ∧
        (∀ j, j < i →
          runHet [[(0 : ℚ)], [1]] 1 (runOnce [[(0 : ℚ)], [1]] 1 1
              ((fun _ _ => 0) (([1, 2, 3] : List ℤ).getD i 0)))
            < runHet [[(0 : ℚ)], [1]] 1 (runOnce [[(0 : ℚ)], [1]] 1 1
                ((fun _ _ => 0) (([1, 2, 3] : List ℤ).getD j 0)))) :=
  kmeans_multiple_runs_seeded_best_of_three [[0], [1]] 1 1
    (fun _ _ => 0) (fun _ => 0) (fun _ => 7) (by omega)

/-- C1: the Multi-Run Driver initializes its trials with the uniform random
initializer get_initial_centroids, not with the weighted k-means++
smart_initialize, despite the source's own comment at the call site. At
data = [[0],[1]], k = 2, seed list [0], with the PRNG stream that draws
index 0 on every randint call, the driver's trial starts from the duplicated
Centroid Set [[0],[0]] (its observable output being centroids [[1/2],[0]]
with assignment [0,0]), get_initial_centroids returns exactly [[0],[0]], and
no valid weighted draw sequence can make smart_initialize produce [[0],[0]]:
the duplicate row has selection weight 0. -/
theorem kmeans_multiple_runs_not_weighted_init :
    kmeans_multiple_runs [[(0 : ℚ)], [1]] 2 1 1 (some [0]) (fun _ _ => 0)
        (fun _ => 0) = (some [[(1 : ℚ)/2], [0]], some [0, 0]) ∧
      get_initial_centroids [[(0 : ℚ)], [1]] 2 (fun _ => 0) = [[(0 : ℚ)], [0]] ∧
      ∀ draws : ℕ → ℕ, validSmartDraws [[(0 : ℚ)], [1]] 2 draws →
        smart_initialize_centroids [[(0 : ℚ)], [1]] 2 draws ≠ [[(0 : ℚ)], [0]] := by
  refine ⟨?_, eval_init_dup, ?_⟩
  · have hrun : run_kmeans [[(0 : ℚ)], [1]] 2 [[0], [0]] 1 false
        = ([[1/2], [0]], some [0, 0], []) := by
      simp [run_kmeans, kmeansLoop, eval_assign_dup, eval_revise_k2]
    have honce : runOnce [[(0 : ℚ)], [1]] 2 1 (fun _ => 0)
        = ([[1/2], [0]], some [0, 0]) := by
      simp [runOnce, eval_init_dup, hrun]
    have e0 : kmeans_multiple_runs [[(0 : ℚ)], [1]] 2 1 1 (some [0]) (fun _ _ => 0)
        (fun _ => 0)
        = driverLoop [[(0 : ℚ)], [1]] 2 1 (fun _ _ => 0)
            (fun i => ([0] : List ℤ).getD i 0) 1 0 ⊤ (none, none) := rfl
    rw [e0]
    simp only [driverLoop]
    rw [if_pos (WithTop.coe_lt_top _)]
    simp [honce]
  · rintro draws ⟨hd0raw, hstep⟩ heq
    obtain ⟨hd1raw, hwraw⟩ := hstep 0 (by norm_num)
    have hd0 : draws 0 < 2 := by simpa using hd0raw
    have hd1 : draws 1 < 2 := by simpa using hd1raw
    have hw : 0 < (smartAux [[(0 : ℚ)], [1]] draws 0).2.getD (draws 1) 0 := by
      simpa using hwraw
    have hs : smart_initialize_centroids [[(0 : ℚ)], [1]] 2 draws
        = [[[(0 : ℚ)], [1]].getD (draws 0) [], [[(0 : ℚ)], [1]].getD (draws 1) []] := by
      simp [smart_initialize_centroids, smartAux]
    rw [hs] at heq
    simp only [List.cons.injEq, and_true] at heq
    obtain ⟨h0eq, h1eq⟩ := heq
    have hw' : (0 : ℚ) < (([[(0 : ℚ)], [1]].map
        (fun x => sqDist x ([[(0 : ℚ)], [1]].getD (draws 0) []))).getD (draws 1) 0) := by
      simpa [smartAux] using hw
    have hd0' : draws 0 = 0 ∨ draws 0 = 1 := by omega
    rcases hd0' with h00 | h01
    · have hd1' : draws 1 = 0 ∨ draws 1 = 1 := by omega
      rcases hd1' with h10 | h11
      · rw [h00, h10] at hw'
        norm_num [sqDist] at hw'
      · rw [h11] at h1eq
        norm_num at h1eq
    · rw [h01] at h0eq
      norm_num at h0eq

/-- C1 witness: a concrete valid weighted draw sequence, on which the claim
theorem's universally quantified conjunct is instantiated. -/
theorem kmeans_multiple_runs_not_weighted_init_witness :
    smart_initialize_centroids [[(0 : ℚ)], [1]] 2 (fun i => min i 1)
      ≠ [[(0 : ℚ)], [0]] :=
  kmeans_multiple_runs_not_weighted_init.2.2 (fun i => min i 1) (by
    constructor
    · norm_num
    · intro j hj
      interval_cases j
      constructor
      · norm_num
      · norm_num [smartAux, sqDist])

end KMeans
